import Mathlib

/-!
The reconciliation engine of terraform-provider-rds-configuration.

A shallow embedding of `internal/provider/provider.go` and
`internal/provider/resource_rds_configuration.go`.

* Go maps (`map[string]T`) are association lists whose keys stay distinct
  because the only writer is `GoMap.set`.
* `interface{}` values that the code stores are `Iface`.
* The remote instance is a state `σ` together with the behaviour of the
  calls the code makes on it (`mysqlClient`); every call the code issues
  is appended to a log kept next to the remote state, out of reach of
  the remote behaviour itself.
* Functions returning `(T, error)` return a pair of options, as in Go.
* `d.Set("setting", ...)` stores what the SDK's schema writer keeps for the
  schema declared in `resourceRdsConfiguration()`: typed fields, hashed
  into a set.
-/

set_option autoImplicit false

namespace RdsConfiguration

/-! ## Go values and maps -/

/-- An `error` value, identified with its message. -/
abbrev GoError := String

/-- A `*sql.DB` handle. -/
abbrev Handle := Nat

/-- The `interface{}` values stored in a setting: `nil`, an `int64`, a `string`. -/
inductive Iface where
  | null
  | int (i : Int)
  | str (s : String)
  deriving DecidableEq, Repr

/-- A Go `map[string]ν`: association list, keys distinct. -/
abbrev GoMap (ν : Type) := List (String × ν)

namespace GoMap

variable {ν : Type}

/-- The lookup `v, ok := m[k]`. -/
def get? : GoMap ν → String → Option ν
  | [], _ => none
  | (k', v) :: t, k => if k' = k then some v else get? t k

/-- The assignment `m[k] = v`: overwrite in place, or add a new key. -/
def set : GoMap ν → String → ν → GoMap ν
  | [], k, v => [(k, v)]
  | (k', v') :: t, k, v => if k' = k then (k, v) :: t else (k', v') :: set t k v

/-- The builtin `delete(m, k)`. -/
def delete : GoMap ν → String → GoMap ν
  | [], _ => []
  | (k', v') :: t, k => if k' = k then delete t k else (k', v') :: delete t k

/-- The keys of the map. -/
def keys (m : GoMap ν) : List String := m.map Prod.fst

/-- The values of the map, in the order of the association list. -/
def values (m : GoMap ν) : List ν := m.map Prod.snd

end GoMap

/-- One entry of a snapshot or of the resource state: `map[string]interface{}`. -/
abbrev Setting := GoMap Iface

/-- The result of `readConfiguration`: `map[string]map[string]interface{}`. -/
abbrev Snapshot := GoMap Setting

/-! ## database/sql -/

/-- Go `sql.NullInt64`. -/
structure NullInt64 where
  Int64 : Int
  Valid : Bool
  deriving DecidableEq, Repr

/-- What one `rows.Next()` that returned true is followed by: `rows.Scan`
either fills `name`, `value`, `description` or fails. -/
inductive ScanResult where
  | row (name : String) (value : NullInt64) (description : String)
  | scanErr (e : GoError)
  deriving DecidableEq, Repr

/-- A `*sql.Rows` cursor: the steps for which `Next()` returns true, and
the value of `rows.Err()` once `Next()` has returned false (`none` when the
result set was exhausted, `some e` when iteration stopped on an error). -/
structure Rows where
  steps : List ScanResult
  Err : Option GoError
  deriving DecidableEq, Repr

/-- The calls the code makes, in the order it makes them. -/
inductive Event where
  | readConfiguration (withDescriptions : Bool)
  | connection
  | Query (db : Handle)
  | Exec (db : Handle) (name : String) (value : Int)
  deriving DecidableEq, Repr

/-- The remote state together with the log of calls issued so far. -/
structure World (σ : Type) where
  remote : σ
  log : List Event

/-- Record a call and the remote state it leaves. -/
def World.step {σ : Type} (w : World σ) (ev : Event) (r : σ) : World σ :=
  { remote := r, log := w.log ++ [ev] }

/-- The client `meta.(*mysqlClient)` as the code uses it:
`connection` is the field `client.connection`; `Query` is
`db.Query("CALL mysql.rds_show_configuration")`; `Exec` is
`db.Exec("CALL mysql.rds_set_configuration(?, ?)", name, value)`;
`Values` is the order in which `maps.Values` walks a map (unspecified in
Go, hence any rearrangement of the entries). -/
structure mysqlClient (σ : Type) where
  connection : σ → Except GoError Handle × σ
  Query : Handle → σ → Except GoError Rows × σ
  Exec : Handle → String → Int → σ → Option GoError × σ
  Values : Snapshot → List Setting
  Values_perm : ∀ m : Snapshot, (Values m).Perm (GoMap.values m)

/-! ## provider.go: readConfiguration -/

/-- The body of the `for rows.Next()` loop after a successful `Scan`. -/
def scanRow (withDescriptions : Bool) (result : Snapshot)
    (name : String) (value : NullInt64) (description : String) : Snapshot :=
  let result := result.set name
    [("name", Iface.str name),
     ("value", if value.Valid then Iface.int value.Int64 else Iface.null)]
  if withDescriptions then
    match result.get? name with
    | some s => result.set name (s.set "description" (Iface.str description))
    | none => result
  else result

/-- The loop `for rows.Next() { ... }` followed by `return result, nil`.
`rows.Err()` is never consulted by the source. -/
def scanLoop (withDescriptions : Bool) :
    List ScanResult → Snapshot → Option Snapshot × Option GoError
  | [], result => (some result, none)
  | ScanResult.scanErr e :: _, _ => (none, some e)
  | ScanResult.row name value description :: rest, result =>
    scanLoop withDescriptions rest (scanRow withDescriptions result name value description)

/-- Source `readConfiguration(ctx, client, withDescriptions)`. -/
def readConfiguration {σ : Type} (client : mysqlClient σ) (withDescriptions : Bool)
    (w : World σ) : (Option Snapshot × Option GoError) × World σ :=
  let w := { w with log := w.log ++ [Event.readConfiguration withDescriptions] }
  match client.connection w.remote with
  | (Except.error err, r) => ((none, some err), w.step Event.connection r)
  | (Except.ok db, r) =>
    let w := w.step Event.connection r
    match client.Query db w.remote with
    | (Except.error err, r) => ((none, some err), w.step (Event.Query db) r)
    | (Except.ok rows, r) =>
      (scanLoop withDescriptions rows.steps [], w.step (Event.Query db) r)

/-! ## provider.go: getConnectionFunc -/

/-- One run of the function handed to `resource.RetryContext`:
`sql.Open` fails (and returns a nil handle), or it returns a handle whose
`Ping` fails, or it returns a handle whose `Ping` succeeds. -/
inductive Attempt where
  | openErr (e : GoError)
  | pingErr (h : Handle) (e : GoError)
  | pingOk (h : Handle)
  deriving DecidableEq, Repr

/-- The retried function `func() *resource.RetryError`: it assigns the
captured variable `db` straight from `sql.Open`, then pings. Returns the
new value of `db` and the retryable error, if any. -/
def retryFunc (a : Attempt) (_db : Option Handle) : Option Handle × Option GoError :=
  match a with
  | Attempt.openErr e => (none, some e)
  | Attempt.pingErr h e => (some h, some e)
  | Attempt.pingOk h => (some h, none)

/-- The SDK's `resource.RetryContext(ctx, client.connectTimeout, f)`: run
`f` again while it returns a retryable error and the timeout has not
elapsed. Time is abstracted to the list of attempts that fit into the
timeout: when the list is used up the timeout has elapsed and the last
error is returned. `timeoutErr` is the SDK's `TimeoutError` for this
timeout, returned when the timeout elapsed before `f` ever ran. -/
def RetryContext (timeoutErr : GoError) : List Attempt → Option Handle → Option GoError →
    Option Handle × Option GoError
  | [], db, lastErr => (db, some (lastErr.getD timeoutErr))
  | a :: rest, db, _ =>
    match retryFunc a db with
    | (db, none) => (db, none)
    | (db, some e) => RetryContext timeoutErr rest db (some e)

/-- The closure returned by `getConnectionFunc()`, with the captured
variable `db` passed in and out. `attempts` are the connection attempts
that would fit into `client.connectTimeout` during this call. -/
def getConnection (timeoutErr : GoError) (attempts : List Attempt) (db : Option Handle) :
    (Option Handle × Option GoError) × Option Handle :=
  match db with
  | some h => ((some h, none), some h)
  | none =>
    match RetryContext timeoutErr attempts none none with
    | (db, some retryErr) => ((none, some retryErr), db)
    | (db, none) => ((db, none), db)

/-- A sequence of calls on one closure; `getConnectionFunc()` starts it
with `db = nil`. Returns what each call returned. -/
def acquireSeq (timeoutErr : GoError) :
    List (List Attempt) → Option Handle → List (Option Handle × Option GoError)
  | [], _ => []
  | attempts :: calls, db =>
    (getConnection timeoutErr attempts db).1 ::
      acquireSeq timeoutErr calls (getConnection timeoutErr attempts db).2

/-! ## Diagnostics and resource data -/

/-- Go `diag.Severity`. -/
inductive Severity where
  | Error
  | Warning
  deriving DecidableEq, Repr

/-- Go `diag.Diagnostic`. -/
structure Diagnostic where
  Severity : Severity
  Summary : String
  Detail : String
  deriving DecidableEq, Repr

/-- Go `diag.Diagnostics`; `nil` is the empty list. -/
abbrev Diagnostics := List Diagnostic

/-- Go `diag.FromErr(err)` for a non-nil error. -/
def FromErr (err : GoError) : Diagnostics :=
  [{ Severity := Severity.Error, Summary := err, Detail := "" }]

/-- Go `diags.HasError()`. -/
def HasError (diags : Diagnostics) : Bool :=
  diags.any fun dg => dg.Severity == Severity.Error

/-- An entry of the declared `setting` set as `d.Get("setting")` hands it
to create/update and to the diff: the schema makes `name` a required
string and `value` a required int. -/
structure SettingArg where
  name : String
  value : Int
  deriving DecidableEq, Repr

/-- The part of `*schema.ResourceData` the code writes: the identity
(`d.SetId`) and the attribute `setting` (`d.Set("setting", ...)`). -/
structure ResourceData where
  Id : String
  setting : List Setting
  deriving DecidableEq, Repr

/-! ## The SDK's `d.Set` on the attribute `setting`

The schema in `resourceRdsConfiguration()` makes `setting` a `TypeSet` whose
elements have the fields `name` (`TypeString`) and `value` (`TypeInt`). -/

/-- A `TypeString` field as the SDK's field writer stores it and reads it
back: a nil or missing value becomes the empty string; an int is an error. -/
def writeString : Option Iface → Option String
  | none => some ""
  | some Iface.null => some ""
  | some (Iface.str s) => some s
  | some (Iface.int _) => none

/-- A `TypeInt` field as the SDK's field writer stores it and reads it
back: a nil or missing value becomes 0; a string is an error. -/
def writeInt : Option Iface → Option Int
  | none => some 0
  | some Iface.null => some 0
  | some (Iface.int i) => some i
  | some (Iface.str _) => none

/-- One element of `setting` written through the schema: a key that is not
a field of the schema is an error, and the element read back has both
fields, typed. -/
def writeElem (s : Setting) : Option Setting :=
  if s.keys.all fun k => k == "name" || k == "value" then
    match writeString (s.get? "name"), writeInt (s.get? "value") with
    | some n, some i => some [("name", Iface.str n), ("value", Iface.int i)]
    | _, _ => none
  else none

/-- All elements written through the schema, in order; the first error
aborts. -/
def writeAll : List Setting → Option (List Setting)
  | [] => some []
  | s :: rest =>
    match writeElem s, writeAll rest with
    | some e, some es => some (e :: es)
    | _, _ => none

/-- The SDK's `(*schema.Set).Add` for each element in order: an element
whose hash code is already in the set is not added. `hash` is the hash
code the SDK gives an element of `setting` (`schema.HashResource`). -/
def addAll (hash : Setting → Nat) : List Setting → List Setting → List Setting
  | [], acc => acc
  | e :: rest, acc =>
    if acc.any (fun x => hash x == hash e) then addAll hash rest acc
    else addAll hash rest (acc ++ [e])

/-- Go `d.Set("setting", v)` for this resource: the elements are written
through the schema and hashed into a set; on an error nothing is stored.
The error `d.Set` returns is dropped by the source and is not part of the
result. -/
def ResourceData.Set (hash : Setting → Nat) (d : ResourceData) (v : List Setting) :
    ResourceData :=
  match writeAll v with
  | some es => { d with setting := addAll hash es [] }
  | none => d

/-! ## resource_rds_configuration.go -/

/-- Source `resourceRdsConfigurationRead`. -/
def resourceRdsConfigurationRead {σ : Type} (hash : Setting → Nat) (client : mysqlClient σ)
    (d : ResourceData) (w : World σ) : Diagnostics × ResourceData × World σ :=
  match readConfiguration client false w with
  | ((_, some err), w) => (FromErr err, d, w)
  | ((config, none), w) => ([], d.Set hash (client.Values (config.getD [])), w)

/-- The loop `for _, s := range d.Get("setting").(*schema.Set).List()` of
create/update: one `db.Exec` per entry, returning at the first error. -/
def execLoop {σ : Type} (client : mysqlClient σ) (db : Handle) :
    List SettingArg → World σ → Option GoError × World σ
  | [], w => (none, w)
  | s :: rest, w =>
    match client.Exec db s.name s.value w.remote with
    | (some err, r) => (some err, w.step (Event.Exec db s.name s.value) r)
    | (none, r) => execLoop client db rest (w.step (Event.Exec db s.name s.value) r)

/-- Source `resourceRdsConfigurationCreateOrUpdate`; `desired` is
`d.Get("setting").(*schema.Set).List()`. -/
def resourceRdsConfigurationCreateOrUpdate {σ : Type} (hash : Setting → Nat)
    (client : mysqlClient σ) (d : ResourceData) (desired : List SettingArg) (w : World σ) :
    Diagnostics × ResourceData × World σ :=
  match client.connection w.remote with
  | (Except.error err, r) => (FromErr err, d, w.step Event.connection r)
  | (Except.ok db, r) =>
    match execLoop client db desired (w.step Event.connection r) with
    | (some err, w) => (FromErr err, d, w)
    | (none, w) => resourceRdsConfigurationRead hash client { d with Id := "singleton" } w

/-- Source `resourceRdsConfigurationDelete`. -/
def resourceRdsConfigurationDelete {σ : Type} (_client : mysqlClient σ) (d : ResourceData)
    (w : World σ) : Diagnostics × ResourceData × World σ :=
  ([{ Severity := Severity.Warning,
      Summary := "RDS configuration is not actually deleted or modified in RDS",
      Detail := "Deleting an RDS configuration from Terraform will remove the " ++
        "configuration from Terraforms state, but does not delete, change, " ++
        "or revert anything in the RDS instance. Any previously configured " ++
        "settings will persist with their most recent values." }],
   { d with Id := "" }, w)

/-- The tail of `resourceRdsConfigurationImport`: `delete(s, "description")`
on every entry of `d.Get("setting")`, then `return []*schema.ResourceData{d}, nil`. -/
def importStrip (d : ResourceData) : ResourceData :=
  { d with setting := d.setting.map fun s => s.delete "description" }

/-- Source `resourceRdsConfigurationImport`: the returned slice and error,
then `d` and the world as the call leaves them. -/
def resourceRdsConfigurationImport {σ : Type} (hash : Setting → Nat) (client : mysqlClient σ)
    (d : ResourceData) (w : World σ) :
    (Option (List ResourceData) × Option GoError) × ResourceData × World σ :=
  match resourceRdsConfigurationRead hash client d w with
  | (diags, d, w) =>
    match (if HasError diags then diags.find? (fun dg => dg.Severity == Severity.Error)
           else none) with
    | some dg =>
      ((none, some (if dg.Detail ≠ "" then dg.Summary ++ "\n\n" ++ dg.Detail else dg.Summary)),
       d, w)
    | none => ((some [importStrip d], none), importStrip d, w)

/-- Go `%s` applied to the `interface{}` found under a key of a setting. -/
def fmtS : Option Iface → String
  | some (Iface.str s) => s
  | some (Iface.int i) => "%!s(int64=" ++ toString i ++ ")"
  | some Iface.null => "%!s(<nil>)"
  | none => "%!s(<nil>)"

/-- Go `% 3d` applied to a non-negative int: a blank in place of the sign,
then blanks on the left up to width 3. -/
def fmtSpace3d (n : Nat) : String :=
  String.mk (List.replicate (3 - (" " ++ toString n).length) ' ') ++ (" " ++ toString n)

/-- Go `fmt.Sprintf("% 3d. \"%s\": %s\n", i + 1, c["name"], c["description"])`. -/
def validLine (i : Nat) (c : Setting) : String :=
  fmtSpace3d (i + 1) ++ ". \"" ++ fmtS (c.get? "name") ++ "\": " ++
    fmtS (c.get? "description") ++ "\n"

/-- The loop collecting `badNames` in the diff. -/
def badNamesLoop (config : Snapshot) : List SettingArg → List String → List String
  | [], badNames => badNames
  | s :: rest, badNames =>
    match config.get? s.name with
    | some _ => badNamesLoop config rest badNames
    | none => badNamesLoop config rest (badNames ++ [s.name])

/-- The loop `for i, c := range maps.Values(config) { errMsg += ... }`. -/
def validLinesLoop : List Setting → Nat → String → String
  | [], _, errMsg => errMsg
  | c :: rest, i, errMsg => validLinesLoop rest (i + 1) (errMsg ++ validLine i c)

/-- Source `resourceRdsConfigurationCustomizeDiff`; `desired` is
`d.Get("setting").(*schema.Set).List()`. -/
def resourceRdsConfigurationCustomizeDiff {σ : Type} (client : mysqlClient σ)
    (desired : List SettingArg) (w : World σ) : Option GoError × World σ :=
  match readConfiguration client true w with
  | ((_, some err), w) => (some err, w)
  | ((config, none), w) =>
    let badNames := badNamesLoop (config.getD []) desired []
    if badNames.length > 0 then
      (some (validLinesLoop (client.Values (config.getD [])) 0
        ("Unsupported RDS configuration settings: \"" ++
          String.intercalate "\", \"" badNames ++ "\"\n\n" ++ "Valid settings are:\n")), w)
    else (none, w)

/-! ## A concrete remote instance for evaluation -/

/-- The state of the sample instance: the rows the introspection call
returns next, and the number of mutation calls it still accepts. -/
structure Inst where
  rows : Rows
  quota : Nat
  deriving DecidableEq, Repr

/-- A client whose connection always yields handle 1, whose `Query`
returns the instance's rows, whose `Exec` succeeds while the quota lasts,
and whose maps are walked in insertion order. -/
def sampleClient : mysqlClient Inst where
  connection := fun r => (Except.ok 1, r)
  Query := fun _ r => (Except.ok r.rows, r)
  Exec := fun _ _ _ r =>
    if r.quota = 0 then (some "exec failed", r) else (none, { r with quota := r.quota - 1 })
  Values := fun m => GoMap.values m
  Values_perm := fun _ => List.Perm.refl _

/-! ## Sample data -/

/-- Rows with a repeated name and an empty name. -/
def sampleRows : Rows :=
  { steps := [ScanResult.row "max_connections" ⟨100, true⟩ "first",
              ScanResult.row "" ⟨0, false⟩ "unnamed",
              ScanResult.row "max_connections" ⟨5, true⟩ "second"],
    Err := none }

/-- A world whose instance returns `sampleRows` and accepts one mutation. -/
def sampleWorld : World Inst := { remote := { rows := sampleRows, quota := 1 }, log := [] }

/-- One good row, after which iteration stops on an error. -/
def brokenRows : Rows :=
  { steps := [ScanResult.row "max_connections" ⟨100, true⟩ "first"],
    Err := some "invalid connection" }

/-- A world whose instance returns `brokenRows`. -/
def brokenWorld : World Inst := { remote := { rows := brokenRows, quota := 0 }, log := [] }

/-- A single row whose name is empty. -/
def unnamedRows : Rows :=
  { steps := [ScanResult.row "" ⟨0, false⟩ "unnamed"], Err := none }

/-- A world whose instance returns `unnamedRows`. -/
def unnamedWorld : World Inst := { remote := { rows := unnamedRows, quota := 0 }, log := [] }

/-- One row whose value is NULL, as the instance reports an unset setting. -/
def nullRows : Rows :=
  { steps := [ScanResult.row "binlog retention hours" ⟨0, false⟩ "hours to keep binary logs"],
    Err := none }

/-- A world whose instance returns `nullRows` and accepts one mutation. -/
def nullWorld : World Inst := { remote := { rows := nullRows, quota := 1 }, log := [] }

/-- A hash code for evaluation: the length of the element's name. -/
def sampleHash (s : Setting) : Nat :=
  match GoMap.get? s "name" with
  | some (Iface.str n) => n.length
  | _ => 0

/-! ## Specification-side vocabulary -/

/-- The last row named `k` among the scanned steps: the row that produced
the entry for `k`, since every row overwrites `result[name]` with a fresh
map. -/
def lastRow? : List ScanResult → String → Option (NullInt64 × String)
  | [], _ => none
  | ScanResult.scanErr _ :: rest, k => lastRow? rest k
  | ScanResult.row name value description :: rest, k =>
    match lastRow? rest k with
    | some x => some x
    | none => if name = k then some (value, description) else none

/-- The entry a row leaves in the snapshot. -/
def entryOf (withDescriptions : Bool) (name : String) (value : NullInt64)
    (description : String) : Setting :=
  [("name", Iface.str name),
   ("value", if value.Valid then Iface.int value.Int64 else Iface.null)] ++
  (if withDescriptions then [("description", Iface.str description)] else [])

/-- The description stored in an entry (empty when the field is absent). -/
def descriptionOf (s : Setting) : String :=
  match s.get? "description" with
  | some (Iface.str d) => d
  | _ => ""

/-- The ordinal of a listing line as Go prints it with `% 3d`: right
aligned in a field of three, the field growing by one for a number that
fills it because of the blank kept for the sign. -/
def ordinalText (n : Nat) : String :=
  if n < 10 then "  " ++ toString n else " " ++ toString n

/-- The text of line `n` of the listing of valid settings. -/
def ordinalLine (n : Nat) (name description : String) : String :=
  ordinalText n ++ ". \"" ++ name ++ "\": " ++ description ++ "\n"

/-- The element of `setting` the schema keeps for a snapshot entry: the
entry's name, and its value with NULL replaced by 0. -/
def storedEntry (e : String × Setting) : Setting :=
  [("name", Iface.str e.1),
   ("value", match GoMap.get? e.2 "value" with
             | some (Iface.int i) => Iface.int i
             | _ => Iface.int 0)]

/-! ## Vocabulary for the mutation calls -/

/-- The log entry of the mutation call for one desired entry. -/
def execEvent (db : Handle) (s : SettingArg) : Event := Event.Exec db s.name s.value

/-- Whether a log entry is a mutation call. -/
def isExec : Event → Bool
  | Event.Exec _ _ _ => true
  | _ => false

/-- The remote state after the mutation calls for `entries`, issued in
order from state `r`, have all succeeded; `none` when one of them fails. -/
def applyAll {σ : Type} (client : mysqlClient σ) (db : Handle) :
    List SettingArg → σ → Option σ
  | [], r => some r
  | s :: rest, r =>
    match client.Exec db s.name s.value r with
    | (none, r') => applyAll client db rest r'
    | (some _, _) => none

/-! ## Lemmas on Go maps -/

namespace GoMap

variable {ν : Type}

theorem get?_set_self (m : GoMap ν) (k : String) (v : ν) : (m.set k v).get? k = some v := by
  induction m with
  | nil => simp [set, get?]
  | cons a t ih =>
    obtain ⟨k', v'⟩ := a
    by_cases h : k' = k
    · simp [set, get?, h]
    · simp [set, get?, h, ih]

theorem get?_set_ne (m : GoMap ν) (k k' : String) (v : ν) (h : k ≠ k') :
    (m.set k v).get? k' = m.get? k' := by
  induction m with
  | nil => simp [set, get?, h]
  | cons a t ih =>
    obtain ⟨k₀, v₀⟩ := a
    by_cases h₀ : k₀ = k
    · subst h₀; simp [set, get?, h]
    · by_cases h₁ : k₀ = k'
      · subst h₁; simp [set, get?, h₀]
      · simp [set, get?, h₀, h₁, ih]

theorem set_set (m : GoMap ν) (k : String) (v v' : ν) : (m.set k v).set k v' = m.set k v' := by
  induction m with
  | nil => simp [set]
  | cons a t ih =>
    obtain ⟨k₀, v₀⟩ := a
    by_cases h₀ : k₀ = k
    · simp [set, h₀]
    · simp [set, h₀, ih]

theorem mem_keys_set (m : GoMap ν) (k k' : String) (v : ν) :
    k' ∈ (m.set k v).keys ↔ k' = k ∨ k' ∈ m.keys := by
  induction m with
  | nil => simp [set, keys]
  | cons a t ih =>
    obtain ⟨k₀, v₀⟩ := a
    by_cases h₀ : k₀ = k
    · subst h₀; simp [set, keys]
    · have ih' : k' ∈ List.map Prod.fst (set t k v) ↔ k' = k ∨ k' ∈ List.map Prod.fst t := ih
      simp only [set, h₀, keys, if_false, List.map_cons, List.mem_cons, ih']
      tauto

theorem nodup_keys_set (m : GoMap ν) (k : String) (v : ν) (h : m.keys.Nodup) :
    (m.set k v).keys.Nodup := by
  induction m with
  | nil => simp [set, keys]
  | cons a t ih =>
    obtain ⟨k₀, v₀⟩ := a
    have ht : (keys t).Nodup := (List.nodup_cons.mp h).2
    have hk : k₀ ∉ keys t := (List.nodup_cons.mp h).1
    by_cases h₀ : k₀ = k
    · subst h₀
      simpa [set, keys] using h
    · have hmem : k₀ ∉ keys (set t k v) := by
        rw [mem_keys_set]
        rintro (h₁ | h₁)
        · exact h₀ h₁
        · exact hk h₁
      have : (k₀ :: keys (set t k v)).Nodup := List.nodup_cons.mpr ⟨hmem, ih ht⟩
      simpa [set, keys, h₀] using this

theorem get?_eq_none_iff (m : GoMap ν) (k : String) : m.get? k = none ↔ k ∉ m.keys := by
  induction m with
  | nil => simp [get?, keys]
  | cons a t ih =>
    obtain ⟨k₀, v₀⟩ := a
    have ih' : get? t k = none ↔ k ∉ List.map Prod.fst t := ih
    by_cases h₀ : k₀ = k
    · subst h₀; simp [get?, keys]
    · have h₁ : ¬ k = k₀ := fun h => h₀ h.symm
      simp [get?, keys, h₀, h₁, ih']

theorem get?_of_mem (m : GoMap ν) (h : m.keys.Nodup) (k : String) (v : ν) (hm : (k, v) ∈ m) :
    m.get? k = some v := by
  induction m with
  | nil => cases hm
  | cons a t ih =>
    obtain ⟨k₀, v₀⟩ := a
    have ht : (keys t).Nodup := (List.nodup_cons.mp h).2
    have hk : k₀ ∉ keys t := (List.nodup_cons.mp h).1
    rcases List.mem_cons.mp hm with heq | hmem
    · cases heq; simp [get?]
    · have hne : k₀ ≠ k := by
        rintro rfl
        exact hk (List.mem_map.mpr ⟨(k₀, v), hmem, rfl⟩)
      simp [get?, hne, ih ht hmem]

theorem delete_eq_self (m : GoMap ν) (k : String) (h : m.get? k = none) : m.delete k = m := by
  induction m with
  | nil => rfl
  | cons a t ih =>
    obtain ⟨k₀, v₀⟩ := a
    by_cases h₀ : k₀ = k
    · simp [get?, h₀] at h
    · simp [get?, h₀] at h
      simp [delete, h₀, ih h]

end GoMap

/-! ## Lemmas on readConfiguration -/

theorem scanRow_eq (flag : Bool) (result : Snapshot) (name : String) (value : NullInt64)
    (description : String) :
    scanRow flag result name value description =
      GoMap.set result name (entryOf flag name value description) := by
  cases flag
  · simp [scanRow, entryOf]
  · simp [scanRow, entryOf, GoMap.get?_set_self, GoMap.set_set, GoMap.set]

/-- What a successful scan loop returns, key by key: the entry of the last
row carrying the key, or what the map held before the loop. -/
theorem scanLoop_get? (flag : Bool) (steps : List ScanResult) (result snap : Snapshot)
    (e : Option GoError) (h : scanLoop flag steps result = (some snap, e)) (k : String) :
    snap.get? k =
      match lastRow? steps k with
      | some (v, d) => some (entryOf flag k v d)
      | none => result.get? k := by
  induction steps generalizing result with
  | nil =>
    simp [scanLoop] at h
    simp [lastRow?, h.1]
  | cons a rest ih =>
    cases a with
    | scanErr err => simp [scanLoop] at h
    | row name value description =>
      simp only [scanLoop] at h
      rw [ih _ h, lastRow?]
      cases hl : lastRow? rest k with
      | some x => simp
      | none =>
        by_cases hn : name = k
        · subst hn
          simp [scanRow_eq, GoMap.get?_set_self]
        · simp [hn, scanRow_eq, GoMap.get?_set_ne _ _ _ _ hn]

theorem scanLoop_nodup (flag : Bool) (steps : List ScanResult) (result snap : Snapshot)
    (e : Option GoError) (h : scanLoop flag steps result = (some snap, e))
    (hr : result.keys.Nodup) : snap.keys.Nodup := by
  induction steps generalizing result with
  | nil =>
    simp [scanLoop] at h
    rw [← h.1]; exact hr
  | cons a rest ih =>
    cases a with
    | scanErr err => simp [scanLoop] at h
    | row name value description =>
      simp only [scanLoop] at h
      exact ih _ h (by rw [scanRow_eq]; exact GoMap.nodup_keys_set _ _ _ hr)

theorem scanLoop_keys (flag : Bool) (steps : List ScanResult) (result snap : Snapshot)
    (e : Option GoError) (h : scanLoop flag steps result = (some snap, e)) (k : String) :
    k ∈ snap.keys ↔ k ∈ result.keys ∨ ∃ v d, ScanResult.row k v d ∈ steps := by
  induction steps generalizing result with
  | nil =>
    simp [scanLoop] at h
    simp [h.1]
  | cons a rest ih =>
    cases a with
    | scanErr err => simp [scanLoop] at h
    | row name value description =>
      simp only [scanLoop] at h
      rw [ih _ h, scanRow_eq, GoMap.mem_keys_set]
      constructor
      · rintro ((h₁ | h₁) | ⟨v, d, h₁⟩)
        · subst h₁; exact Or.inr ⟨value, description, List.mem_cons_self _ _⟩
        · exact Or.inl h₁
        · exact Or.inr ⟨v, d, List.mem_cons_of_mem _ h₁⟩
      · rintro (h₁ | ⟨v, d, h₁⟩)
        · exact Or.inl (Or.inr h₁)
        · rcases List.mem_cons.mp h₁ with h₂ | h₂
          · cases h₂; exact Or.inl (Or.inl rfl)
          · exact Or.inr ⟨v, d, h₂⟩

/-- A read that returned a snapshot went through the connection and the
query, and the snapshot is what the scan loop made of the rows. -/
theorem readConfiguration_ok {σ : Type} (client : mysqlClient σ) (flag : Bool) (w w' : World σ)
    (snap : Snapshot) (e : Option GoError)
    (h : readConfiguration client flag w = ((some snap, e), w')) :
    ∃ db r₁ rows r₂, client.connection w.remote = (Except.ok db, r₁) ∧
      client.Query db r₁ = (Except.ok rows, r₂) ∧
      scanLoop flag rows.steps [] = (some snap, e) ∧
      w' = { remote := r₂, log := w.log ++
        [Event.readConfiguration flag, Event.connection, Event.Query db] } := by
  unfold readConfiguration at h
  simp only [] at h
  rcases hc : client.connection w.remote with ⟨c, r₁⟩
  rw [hc] at h
  cases c with
  | error err => simp at h
  | ok db =>
    simp only [World.step] at h
    rcases hq : client.Query db r₁ with ⟨q, r₂⟩
    rw [hq] at h
    cases q with
    | error err => simp at h
    | ok rows =>
      simp only [Prod.mk.injEq] at h
      refine ⟨db, r₁, rows, r₂, rfl, hq, h.1, ?_⟩
      rw [← h.2]
      simp

theorem entryOf_description (flag : Bool) (k : String) (v : NullInt64) (d : String) :
    GoMap.get? (entryOf flag k v d) "description" =
      if flag then some (Iface.str d) else none := by
  cases flag <;> simp [entryOf, GoMap.get?]

theorem entryOf_name (flag : Bool) (k : String) (v : NullInt64) (d : String) :
    GoMap.get? (entryOf flag k v d) "name" = some (Iface.str k) := by
  simp [entryOf, GoMap.get?]

/-- Every entry of a snapshot returned by the scan loop started on the
empty map is the entry of the last row carrying its key. -/
theorem scanLoop_entry (flag : Bool) (steps : List ScanResult) (snap : Snapshot)
    (e : Option GoError) (h : scanLoop flag steps [] = (some snap, e))
    (k : String) (s : Setting) (hm : (k, s) ∈ snap) :
    ∃ v d, lastRow? steps k = some (v, d) ∧ s = entryOf flag k v d := by
  have hnd : (GoMap.keys snap).Nodup := scanLoop_nodup flag steps [] snap e h (by simp [GoMap.keys])
  have hg := scanLoop_get? flag steps [] snap e h k
  rw [GoMap.get?_of_mem snap hnd k s hm] at hg
  cases hl : lastRow? steps k with
  | none => rw [hl] at hg; simp [GoMap.get?] at hg
  | some x =>
    obtain ⟨v, d⟩ := x
    rw [hl] at hg
    simp only [Option.some.injEq] at hg
    exact ⟨v, d, rfl, hg⟩

/-- A scan failure discards the rows read before it. -/
theorem scanLoop_scanErr (flag : Bool) (steps : List ScanResult) (result : Snapshot)
    (err : GoError) (h : ScanResult.scanErr err ∈ steps) :
    ∃ err', scanLoop flag steps result = (none, some err') := by
  induction steps generalizing result with
  | nil => cases h
  | cons a rest ih =>
    cases a with
    | scanErr e₀ => exact ⟨e₀, by simp [scanLoop]⟩
    | row name value description =>
      rcases List.mem_cons.mp h with h₁ | h₁
      · cases h₁
      · simpa [scanLoop] using ih _ h₁

/-- The scan loop never returns a nil map together with a nil error. -/
theorem scanLoop_some (flag : Bool) (steps : List ScanResult) (result : Snapshot)
    (x : Option Snapshot) (h : scanLoop flag steps result = (x, none)) :
    ∃ snap, x = some snap := by
  induction steps generalizing result with
  | nil => simp [scanLoop] at h; exact ⟨result, h.symm⟩
  | cons a rest ih =>
    cases a with
    | scanErr e₀ => simp [scanLoop] at h
    | row name value description => exact ih _ (by simpa [scanLoop] using h)

theorem readConfiguration_some {σ : Type} (client : mysqlClient σ) (flag : Bool)
    (w w' : World σ) (x : Option Snapshot)
    (h : readConfiguration client flag w = ((x, none), w')) : ∃ snap, x = some snap := by
  unfold readConfiguration at h
  simp only [] at h
  rcases hc : client.connection w.remote with ⟨c, r₁⟩
  rw [hc] at h
  cases c with
  | error err => simp at h
  | ok db =>
    simp only [World.step] at h
    rcases hq : client.Query db r₁ with ⟨q, r₂⟩
    rw [hq] at h
    cases q with
    | error err => simp at h
    | ok rows =>
      simp only [Prod.mk.injEq] at h
      exact scanLoop_some flag rows.steps [] x h.1

/-- The failures the source does check for: a failed connection, a failed
query and a failed scan each make `readConfiguration` return an error and
no snapshot. -/
theorem readConfiguration_checked_failures {σ : Type} (client : mysqlClient σ) (flag : Bool)
    (w : World σ) :
    (∀ err r, client.connection w.remote = (Except.error err, r) →
        (readConfiguration client flag w).1 = (none, some err)) ∧
      (∀ db r₁ err r₂, client.connection w.remote = (Except.ok db, r₁) →
        client.Query db r₁ = (Except.error err, r₂) →
        (readConfiguration client flag w).1 = (none, some err)) ∧
      (∀ db r₁ rows r₂ err, client.connection w.remote = (Except.ok db, r₁) →
        client.Query db r₁ = (Except.ok rows, r₂) →
        ScanResult.scanErr err ∈ rows.steps →
        ∃ err', (readConfiguration client flag w).1 = (none, some err')) := by
  refine ⟨?_, ?_, ?_⟩
  · intro err r hc
    simp [readConfiguration, hc]
  · intro db r₁ err r₂ hc hq
    simp [readConfiguration, hc, World.step, hq]
  · intro db r₁ rows r₂ err hc hq hmem
    obtain ⟨err', he⟩ := scanLoop_scanErr flag rows.steps [] err hmem
    exact ⟨err', by simp [readConfiguration, hc, World.step, hq, he]⟩

/-! ## Lemmas on the diff -/

theorem string_join_cons (a : String) (l : List String) :
    String.join (a :: l) = a ++ String.join l := by
  apply String.ext
  simp [String.join_eq]

theorem badNamesLoop_eq (config : Snapshot) (desired : List SettingArg) (acc : List String) :
    badNamesLoop config desired acc =
      acc ++ (desired.filter fun s => decide (s.name ∉ GoMap.keys config)).map
        SettingArg.name := by
  induction desired generalizing acc with
  | nil => simp [badNamesLoop]
  | cons s rest ih =>
    cases hg : GoMap.get? config s.name with
    | none =>
      have hk : s.name ∉ GoMap.keys config := (GoMap.get?_eq_none_iff config s.name).mp hg
      simp [badNamesLoop, hg, ih, hk]
    | some x =>
      have hk : s.name ∈ GoMap.keys config := by
        by_contra hn
        rw [(GoMap.get?_eq_none_iff config s.name).mpr hn] at hg
        cases hg
      simp [badNamesLoop, hg, ih, hk]

theorem toDigitsCore_length_ge (b fuel n : Nat) (ds : List Char) :
    ds.length ≤ (Nat.toDigitsCore b fuel n ds).length := by
  induction fuel generalizing n ds with
  | zero => simp [Nat.toDigitsCore]
  | succ f ih =>
    unfold Nat.toDigitsCore
    simp only []
    split
    · simp
    · exact Nat.le_trans (by simp) (ih _ _)

theorem toString_length_small (n : Nat) (h : n < 10) : (toString n).length = 1 := by
  interval_cases n <;> rfl

theorem toString_length_large (n : Nat) (h : 10 ≤ n) : 2 ≤ (toString n).length := by
  show 2 ≤ (Nat.repr n).length
  unfold Nat.repr Nat.toDigits
  obtain ⟨m, rfl⟩ : ∃ m, n = m + 1 := ⟨n - 1, by omega⟩
  have h₁ : (m + 1) / 10 ≠ 0 := by omega
  simp only [List.asString, String.length]
  rw [Nat.toDigitsCore]
  simp only [h₁, if_false]
  unfold Nat.toDigitsCore
  simp only []
  split
  · simp
  · exact Nat.le_trans (by simp) (toDigitsCore_length_ge _ _ _ _)

/-- The padding computed by the `% 3d` model agrees with the case-by-case
rendering of the ordinal. -/
theorem fmtSpace3d_eq (n : Nat) : fmtSpace3d n = ordinalText n := by
  unfold fmtSpace3d ordinalText
  by_cases h : n < 10
  · have hl := toString_length_small n h
    simp only [String.length_append, hl, h, if_true]
    rw [← String.append_assoc]
    rfl
  · have hl := toString_length_large n (by omega)
    simp only [String.length_append, h, if_false]
    have h0 : 3 - (" ".length + (toString n).length) = 0 := by
      have : " ".length = 1 := rfl
      omega
    rw [h0]
    rfl

theorem validLine_eq (i : Nat) (c : Setting) :
    validLine i c =
      ordinalLine (i + 1) (fmtS (GoMap.get? c "name")) (fmtS (GoMap.get? c "description")) := by
  unfold validLine ordinalLine
  rw [fmtSpace3d_eq]

theorem validLinesLoop_eq (vals : List Setting) (i : Nat) (acc : String) :
    validLinesLoop vals i acc =
      acc ++ String.join ((List.enumFrom (i + 1) vals).map fun p =>
        ordinalLine p.1 (fmtS (GoMap.get? p.2 "name")) (fmtS (GoMap.get? p.2 "description"))) := by
  induction vals generalizing i acc with
  | nil => simp [validLinesLoop, String.join]
  | cons c rest ih =>
    simp only [validLinesLoop, List.enumFrom_cons, List.map_cons, string_join_cons]
    rw [ih, String.append_assoc, validLine_eq]

theorem enumFrom_map_snd {α β : Type} (f : α → β) (n : Nat) (l : List α) :
    List.enumFrom n (l.map f) = (List.enumFrom n l).map fun p => (p.1, f p.2) := by
  induction l generalizing n with
  | nil => rfl
  | cons a t ih => simp [List.enumFrom_cons, ih]

/-- The diff after a successful read, with both loops in closed form. -/
theorem customizeDiff_eq {σ : Type} (client : mysqlClient σ) (desired : List SettingArg)
    (w w' : World σ) (snap : Snapshot)
    (hread : readConfiguration client true w = ((some snap, none), w')) :
    resourceRdsConfigurationCustomizeDiff client desired w =
      if ((desired.filter fun s => decide (s.name ∉ GoMap.keys snap)).map
          SettingArg.name).length > 0 then
        (some ("Unsupported RDS configuration settings: \"" ++
          String.intercalate "\", \""
            ((desired.filter fun s => decide (s.name ∉ GoMap.keys snap)).map SettingArg.name) ++
          "\"\n\n" ++ "Valid settings are:\n" ++
          String.join ((List.enumFrom 1 (client.Values snap)).map fun p =>
            ordinalLine p.1 (fmtS (GoMap.get? p.2 "name"))
              (fmtS (GoMap.get? p.2 "description")))), w')
      else (none, w') := by
  unfold resourceRdsConfigurationCustomizeDiff
  rw [hread]
  simp only [Option.getD_some, badNamesLoop_eq, List.nil_append, validLinesLoop_eq, Nat.zero_add]

/-- The pair of strings the listing prints for an entry of a snapshot read
with descriptions is the entry's key and its description. -/
theorem listed_pair (steps : List ScanResult) (snap : Snapshot) (e : Option GoError)
    (h : scanLoop true steps [] = (some snap, e)) (k : String) (s : Setting)
    (hm : (k, s) ∈ snap) :
    fmtS (GoMap.get? s "name") = k ∧
      GoMap.get? s "description" = some (Iface.str (descriptionOf s)) ∧
      fmtS (GoMap.get? s "description") = descriptionOf s := by
  obtain ⟨v, d, -, rfl⟩ := scanLoop_entry true steps snap e h k s hm
  simp [entryOf_name, entryOf_description, descriptionOf, fmtS]

/-! ## Lemmas on create/update, read and import -/

theorem execLoop_ok {σ : Type} (client : mysqlClient σ) (db : Handle)
    (entries : List SettingArg) (w : World σ) (r : σ)
    (h : applyAll client db entries w.remote = some r) :
    execLoop client db entries w =
      (none, { remote := r, log := w.log ++ entries.map (execEvent db) }) := by
  induction entries generalizing w with
  | nil =>
    simp [applyAll] at h
    cases w
    simp_all [execLoop]
  | cons s rest ih =>
    rcases hx : client.Exec db s.name s.value w.remote with ⟨e, r'⟩
    cases e with
    | some err => simp [applyAll, hx] at h
    | none =>
      simp only [applyAll, hx] at h
      simp only [execLoop, hx]
      rw [ih (w.step (Event.Exec db s.name s.value) r') h]
      simp [World.step, execEvent]

theorem execLoop_fail {σ : Type} (client : mysqlClient σ) (db : Handle)
    (pre : List SettingArg) (s : SettingArg) (post : List SettingArg) (w : World σ)
    (r r' : σ) (err : GoError)
    (h : applyAll client db pre w.remote = some r)
    (hx : client.Exec db s.name s.value r = (some err, r')) :
    execLoop client db (pre ++ s :: post) w =
      (some err, { remote := r', log := w.log ++ (pre ++ [s]).map (execEvent db) }) := by
  induction pre generalizing w with
  | nil =>
    simp [applyAll] at h
    subst h
    simp [execLoop, hx, World.step, execEvent]
  | cons a rest ih =>
    rcases ha : client.Exec db a.name a.value w.remote with ⟨e, r₀⟩
    cases e with
    | some err₀ => simp [applyAll, ha] at h
    | none =>
      simp only [applyAll, ha] at h
      have ih' := ih (w.step (Event.Exec db a.name a.value) r₀) h
      simp only [List.cons_append, execLoop, ha]
      show execLoop client db (rest ++ s :: post) (w.step (Event.Exec db a.name a.value) r₀) = _
      rw [ih']
      simp [World.step, execEvent]

theorem execLoop_none {σ : Type} (client : mysqlClient σ) (db : Handle)
    (entries : List SettingArg) (w w' : World σ)
    (h : execLoop client db entries w = (none, w')) :
    applyAll client db entries w.remote = some w'.remote ∧
      w'.log = w.log ++ entries.map (execEvent db) := by
  induction entries generalizing w with
  | nil =>
    simp [execLoop] at h
    subst h
    simp [applyAll]
  | cons s rest ih =>
    rcases hx : client.Exec db s.name s.value w.remote with ⟨e, r'⟩
    cases e with
    | some err => simp [execLoop, hx] at h
    | none =>
      simp only [execLoop, hx] at h
      obtain ⟨h₁, h₂⟩ := ih _ h
      simp only [World.step] at h₁ h₂
      simp [applyAll, hx, h₁, h₂, execEvent]

/-- The log after `readConfiguration`: the calls of the read follow the
earlier ones, and none of them is a mutation call. -/
theorem readConfiguration_log {σ : Type} (client : mysqlClient σ) (flag : Bool) (w : World σ) :
    ∃ tail, (readConfiguration client flag w).2.log = w.log ++ tail ∧
      ∀ ev ∈ tail, isExec ev = false := by
  unfold readConfiguration
  simp only []
  rcases hc : client.connection w.remote with ⟨c, r₁⟩
  cases c with
  | error err =>
    refine ⟨[Event.readConfiguration flag, Event.connection], by simp [World.step], ?_⟩
    intro ev hev
    simp at hev
    rcases hev with rfl | rfl <;> rfl
  | ok db =>
    simp only [World.step]
    rcases hq : client.Query db r₁ with ⟨q, r₂⟩
    refine ⟨[Event.readConfiguration flag, Event.connection, Event.Query db], ?_, ?_⟩
    · cases q <;> simp
    · intro ev hev
      simp at hev
      rcases hev with rfl | rfl | rfl <;> rfl

theorem read_world {σ : Type} (hash : Setting → Nat) (client : mysqlClient σ)
    (d : ResourceData) (w : World σ) :
    (resourceRdsConfigurationRead hash client d w).2.2 = (readConfiguration client false w).2 := by
  unfold resourceRdsConfigurationRead
  rcases hr : readConfiguration client false w with ⟨⟨x, e⟩, w'⟩
  cases e <;> rfl

theorem addAll_mem (hash : Setting → Nat) (l acc : List Setting) (s : Setting)
    (h : s ∈ addAll hash l acc) : s ∈ acc ∨ s ∈ l := by
  induction l generalizing acc with
  | nil => exact Or.inl (by simpa [addAll] using h)
  | cons a rest ih =>
    unfold addAll at h
    split at h
    · rcases ih _ h with h₁ | h₁
      · exact Or.inl h₁
      · exact Or.inr (List.mem_cons_of_mem _ h₁)
    · rcases ih _ h with h₁ | h₁
      · rcases List.mem_append.mp h₁ with h₂ | h₂
        · exact Or.inl h₂
        · rw [List.mem_singleton] at h₂
          subst h₂
          exact Or.inr (List.mem_cons_self _ _)
      · exact Or.inr (List.mem_cons_of_mem _ h₁)

theorem addAll_acc (hash : Setting → Nat) (l acc : List Setting) (s : Setting)
    (h : s ∈ acc) : s ∈ addAll hash l acc := by
  induction l generalizing acc with
  | nil => simpa [addAll] using h
  | cons a rest ih =>
    unfold addAll
    split
    · exact ih _ h
    · exact ih _ (List.mem_append_left _ h)

theorem addAll_represents (hash : Setting → Nat) (l acc : List Setting) (e : Setting)
    (h : e ∈ l) : ∃ s ∈ addAll hash l acc, hash s = hash e := by
  induction l generalizing acc with
  | nil => cases h
  | cons a rest ih =>
    unfold addAll
    rcases List.mem_cons.mp h with h₁ | h₁
    · subst h₁
      split
      · rename_i hany
        obtain ⟨x, hx, hxe⟩ := List.any_eq_true.mp hany
        exact ⟨x, addAll_acc hash rest acc x hx, by simpa using hxe⟩
      · exact ⟨e, addAll_acc hash rest _ e (List.mem_append_right _ (List.mem_singleton_self e)),
          rfl⟩
    · split
      · exact ih _ h₁
      · exact ih _ h₁

theorem addAll_nodup (hash : Setting → Nat) (l acc : List Setting)
    (h : (acc.map hash).Nodup) : ((addAll hash l acc).map hash).Nodup := by
  induction l generalizing acc with
  | nil => simpa [addAll] using h
  | cons a rest ih =>
    unfold addAll
    split
    · exact ih _ h
    · rename_i hany
      apply ih
      rw [List.map_append, List.map_singleton]
      refine List.Nodup.append h (List.nodup_singleton _) ?_
      intro x hx hx'
      rw [List.mem_singleton] at hx'
      subst hx'
      obtain ⟨y, hy, hye⟩ := List.mem_map.mp hx
      exact hany (List.any_eq_true.mpr ⟨y, hy, by simpa using hye⟩)

theorem addAll_no_collision (hash : Setting → Nat) (l acc : List Setting)
    (h : ((acc ++ l).map hash).Nodup) : addAll hash l acc = acc ++ l := by
  induction l generalizing acc with
  | nil => simp [addAll]
  | cons a rest ih =>
    unfold addAll
    have hnot : ¬ (acc.any fun x => hash x == hash a) = true := by
      intro hany
      obtain ⟨x, hx, hxe⟩ := List.any_eq_true.mp hany
      rw [List.map_append, List.map_cons] at h
      have hdis := (List.nodup_append.mp h).2.2
      exact hdis (List.mem_map.mpr ⟨x, hx, rfl⟩)
        (by rw [show hash x = hash a by simpa using hxe]; exact List.mem_cons_self _ _)
    rw [if_neg hnot, ih (acc ++ [a]) (by simpa using h)]
    simp

theorem writeAll_map (g : Setting → Setting) (l : List Setting)
    (h : ∀ e ∈ l, writeElem e = some (g e)) : writeAll l = some (l.map g) := by
  induction l with
  | nil => rfl
  | cons a rest ih =>
    have h₁ := h a (List.mem_cons_self _ _)
    have h₂ := ih fun e he => h e (List.mem_cons_of_mem _ he)
    simp [writeAll, h₁, h₂]

theorem writeElem_entryOf (k : String) (v : NullInt64) (dd : String) :
    writeElem (entryOf false k v dd) = some (storedEntry (k, entryOf false k v dd)) := by
  cases hv : v.Valid <;>
    simp [writeElem, entryOf, storedEntry, GoMap.keys, GoMap.get?, writeString, writeInt, hv]

/-- A successful read stores, for the entries of the snapshot in some
order, their schema-typed elements hashed into a set. -/
theorem read_ok {σ : Type} (hash : Setting → Nat) (client : mysqlClient σ) (d : ResourceData)
    (w w' : World σ) (snap : Snapshot)
    (h : readConfiguration client false w = ((some snap, none), w')) :
    ∃ typed : List Setting, typed.Perm (snap.map storedEntry) ∧
      resourceRdsConfigurationRead hash client d w =
        ([], { d with setting := addAll hash typed [] }, w') := by
  obtain ⟨db, r₁, rows, r₂, -, -, hscan, -⟩ := readConfiguration_ok client false w w' snap none h
  have hentry : ∀ e ∈ snap, writeElem e.2 = some (storedEntry e) := by
    intro e he
    obtain ⟨k, s⟩ := e
    obtain ⟨v, dd, -, rfl⟩ := scanLoop_entry false rows.steps snap none hscan k s he
    exact writeElem_entryOf k v dd
  have hvals : ∀ s ∈ client.Values snap, writeElem s = some ((writeElem s).getD []) := by
    intro s hs
    have hs' : s ∈ GoMap.values snap := (client.Values_perm snap).mem_iff.mp hs
    obtain ⟨e, he, rfl⟩ := List.mem_map.mp hs'
    rw [hentry e he]
    rfl
  refine ⟨(client.Values snap).map fun s => (writeElem s).getD [], ?_, ?_⟩
  · refine ((client.Values_perm snap).map _).trans (List.Perm.of_eq ?_)
    simp only [GoMap.values, List.map_map]
    apply List.map_congr_left
    intro e he
    simp [hentry e he]
  · unfold resourceRdsConfigurationRead
    rw [h]
    simp only [Option.getD_some, ResourceData.Set]
    rw [writeAll_map _ _ hvals]

/-- A read without an error diagnostic stored the typed set of a snapshot. -/
theorem read_no_error {σ : Type} (hash : Setting → Nat) (client : mysqlClient σ)
    (d : ResourceData) (w : World σ)
    (h : HasError (resourceRdsConfigurationRead hash client d w).1 = false) :
    ∃ snap typed, readConfiguration client false w =
        ((some snap, none), (resourceRdsConfigurationRead hash client d w).2.2) ∧
      typed.Perm (snap.map storedEntry) ∧
      (resourceRdsConfigurationRead hash client d w).2.1 =
        { d with setting := addAll hash typed [] } := by
  rcases hr : readConfiguration client false w with ⟨⟨x, e⟩, w'⟩
  cases e with
  | some err =>
    unfold resourceRdsConfigurationRead at h
    rw [hr] at h
    simp [HasError, FromErr] at h
  | none =>
    obtain ⟨snap, rfl⟩ := readConfiguration_some client false w w' x hr
    obtain ⟨typed, hp, hread⟩ := read_ok hash client d w w' snap hr
    rw [hread]
    exact ⟨snap, typed, rfl, hp, rfl⟩

/-- What the typed set holds for a snapshot: every element is the typed
form of an entry, every entry is represented up to its hash code, hash codes
are not repeated, and without collisions nothing is merged. -/
theorem stored_spec (hash : Setting → Nat) (snap : Snapshot) (typed : List Setting)
    (hp : typed.Perm (snap.map storedEntry)) (hnd : (GoMap.keys snap).Nodup) :
    (∀ s ∈ addAll hash typed [], ∃ e ∈ snap, s = storedEntry e) ∧
      (∀ e ∈ snap, ∃ s ∈ addAll hash typed [], hash s = hash (storedEntry e)) ∧
      ((addAll hash typed []).map hash).Nodup ∧
      ((∀ a ∈ snap, ∀ b ∈ snap, hash (storedEntry a) = hash (storedEntry b) → a = b) →
        (addAll hash typed []).Perm (snap.map storedEntry)) := by
  refine ⟨?_, ?_, addAll_nodup hash typed [] (by simp), ?_⟩
  · intro s hs
    rcases addAll_mem hash typed [] s hs with h₁ | h₁
    · cases h₁
    · obtain ⟨e, he, rfl⟩ := List.mem_map.mp (hp.mem_iff.mp h₁)
      exact ⟨e, he, rfl⟩
  · intro e he
    exact addAll_represents hash typed [] (storedEntry e)
      (hp.mem_iff.mpr (List.mem_map.mpr ⟨e, he, rfl⟩))
  · intro hinj
    have hsnap : snap.Nodup := List.Nodup.of_map Prod.fst hnd
    have h₁ : ((snap.map storedEntry).map hash).Nodup := by
      rw [List.map_map]
      exact List.Nodup.map_on (fun a ha b hb hab => hinj a ha b hb hab) hsnap
    have h₂ : (typed.map hash).Nodup := (hp.map hash).nodup_iff.mpr h₁
    rw [addAll_no_collision hash typed [] (by simpa using h₂)]
    simpa using hp

theorem storedEntry_no_description (e : String × Setting) :
    GoMap.get? (storedEntry e) "description" = none := by
  simp [storedEntry, GoMap.get?]

/-- What `getConnection` guarantees on the call that connects: starting
from an empty cache it returns a handle without an error only if a ping on
that handle succeeded among this call's attempts. -/
theorem RetryContext_ok (timeoutErr : GoError) (attempts : List Attempt)
    (db db' : Option Handle) (last : Option GoError)
    (h : RetryContext timeoutErr attempts db last = (db', none)) :
    ∃ h', db' = some h' ∧ Attempt.pingOk h' ∈ attempts := by
  induction attempts generalizing db last with
  | nil => simp [RetryContext] at h
  | cons a rest ih =>
    cases a with
    | openErr e =>
      simp only [RetryContext, retryFunc] at h
      obtain ⟨h', h₁, h₂⟩ := ih _ _ h
      exact ⟨h', h₁, List.mem_cons_of_mem _ h₂⟩
    | pingErr hd e =>
      simp only [RetryContext, retryFunc] at h
      obtain ⟨h', h₁, h₂⟩ := ih _ _ h
      exact ⟨h', h₁, List.mem_cons_of_mem _ h₂⟩
    | pingOk hd =>
      simp only [RetryContext, retryFunc, Prod.mk.injEq, and_true] at h
      exact ⟨hd, h.symm, List.mem_cons_self _ _⟩

/-- A call that starts with an empty cache returns a handle without an
error only if a ping on that handle succeeded among its own attempts, and
it caches that handle. -/
theorem getConnection_fresh_ok (timeoutErr : GoError) (attempts : List Attempt) (h : Handle)
    (db' : Option Handle)
    (hget : getConnection timeoutErr attempts none = ((some h, none), db')) :
    Attempt.pingOk h ∈ attempts ∧ db' = some h := by
  unfold getConnection at hget
  simp only [] at hget
  rcases hr : RetryContext timeoutErr attempts none none with ⟨db, e⟩
  rw [hr] at hget
  cases e with
  | some err => simp at hget
  | none =>
    simp only [Prod.mk.injEq, and_true] at hget
    obtain ⟨h', h₁, h₂⟩ := RetryContext_ok timeoutErr attempts none db none hr
    obtain ⟨hg₁, hg₂⟩ := hget
    rw [h₁] at hg₁
    cases hg₁
    exact ⟨h₂, by rw [← hg₂, h₁]⟩

/-! ## Claims on readConfiguration -/

/-- C4: in a snapshot returned by a successful `readConfiguration`, no entry
has a `description` field when `withDescriptions` is false, and when it is
true every entry has one, equal to the description of the row that produced
the entry (the last row carrying the entry's name). -/
theorem readConfiguration_description_field {σ : Type} (client : mysqlClient σ)
    (withDescriptions : Bool) (w w' : World σ) (snap : Snapshot)
    (db : Handle) (r₁ r₂ : σ) (rows : Rows)
    (hconn : client.connection w.remote = (Except.ok db, r₁))
    (hquery : client.Query db r₁ = (Except.ok rows, r₂))
    (hread : readConfiguration client withDescriptions w = ((some snap, none), w')) :
    ∀ k s, (k, s) ∈ snap →
      (withDescriptions = false → GoMap.get? s "description" = none) ∧
      (withDescriptions = true → ∃ v d, lastRow? rows.steps k = some (v, d) ∧
        GoMap.get? s "description" = some (Iface.str d)) := by
  intro k s hm
  obtain ⟨db', r₁', rows', r₂', hc, hq, hs, -⟩ :=
    readConfiguration_ok client withDescriptions w w' snap none hread
  rw [hconn] at hc
  cases hc
  rw [hquery] at hq
  cases hq
  obtain ⟨v, d, hl, rfl⟩ := scanLoop_entry withDescriptions rows.steps snap none hs k s hm
  constructor
  · intro hf; simp [entryOf_description, hf]
  · intro ht; exact ⟨v, d, hl, by simp [entryOf_description, ht]⟩

/-- C4 at `sampleWorld`, read with descriptions: the entry for
`max_connections` carries the description of the last row of that name. -/
theorem readConfiguration_description_field_witness :
    ∃ v d, lastRow? sampleRows.steps "max_connections" = some (v, d) ∧
      GoMap.get? (entryOf true "max_connections" ⟨5, true⟩ "second") "description" =
        some (Iface.str d) :=
  (readConfiguration_description_field sampleClient true sampleWorld
    { remote := sampleWorld.remote,
      log := [Event.readConfiguration true, Event.connection, Event.Query 1] }
    [("max_connections", entryOf true "max_connections" ⟨5, true⟩ "second"),
     ("", entryOf true "" ⟨0, false⟩ "unnamed")]
    1 sampleWorld.remote sampleWorld.remote sampleRows rfl rfl rfl
    "max_connections" (entryOf true "max_connections" ⟨5, true⟩ "second")
    (List.mem_cons_self _ _)).2 rfl

/-- C5: at `brokenWorld` the cursor stops after one row with
`rows.Err() = "invalid connection"`, and `readConfiguration` returns the
snapshot of that one row together with a nil error. -/
theorem readConfiguration_ignores_rows_err :
    (sampleClient.Query 1 brokenWorld.remote).1 =
        Except.ok { steps := [ScanResult.row "max_connections" ⟨100, true⟩ "first"],
                    Err := some "invalid connection" } ∧
      (readConfiguration sampleClient true brokenWorld).1 =
        (some [("max_connections",
                [("name", Iface.str "max_connections"), ("value", Iface.int 100),
                 ("description", Iface.str "first")])], none) := by
  constructor <;> rfl

/-- C10 as stated fails: at `unnamedWorld` a successful `readConfiguration`
returns a snapshot that has the empty string among its names. -/
theorem readConfiguration_empty_name :
    (readConfiguration sampleClient false unnamedWorld).1 =
        (some [("", [("name", Iface.str ""), ("value", Iface.null)])], none) ∧
      "" ∈ GoMap.keys ([("", [("name", Iface.str ""), ("value", Iface.null)])] : Snapshot) := by
  constructor
  · rfl
  · simp [GoMap.keys]

/-- C10 amended: the snapshot returned by a successful `readConfiguration`
has no name more than once, its names are exactly the names of the scanned
rows (the empty name included when a row carries it), and every entry
records its own key as its `name`. -/
theorem readConfiguration_names {σ : Type} (client : mysqlClient σ)
    (withDescriptions : Bool) (w w' : World σ) (snap : Snapshot)
    (db : Handle) (r₁ r₂ : σ) (rows : Rows)
    (hconn : client.connection w.remote = (Except.ok db, r₁))
    (hquery : client.Query db r₁ = (Except.ok rows, r₂))
    (hread : readConfiguration client withDescriptions w = ((some snap, none), w')) :
    (GoMap.keys snap).Nodup ∧
      (∀ k, k ∈ GoMap.keys snap ↔ ∃ v d, ScanResult.row k v d ∈ rows.steps) ∧
      (∀ k s, (k, s) ∈ snap → GoMap.get? s "name" = some (Iface.str k)) := by
  obtain ⟨db', r₁', rows', r₂', hc, hq, hs, -⟩ :=
    readConfiguration_ok client withDescriptions w w' snap none hread
  rw [hconn] at hc
  cases hc
  rw [hquery] at hq
  cases hq
  refine ⟨scanLoop_nodup _ _ [] snap none hs (by simp [GoMap.keys]), ?_, ?_⟩
  · intro k
    rw [scanLoop_keys _ _ [] snap none hs k]
    simp [GoMap.keys]
  · intro k s hm
    obtain ⟨v, d, -, rfl⟩ := scanLoop_entry withDescriptions rows.steps snap none hs k s hm
    exact entryOf_name _ _ _ _

/-- C10 amended, at `sampleWorld`: a repeated name is kept once and the
empty name is kept. -/
theorem readConfiguration_names_witness :
    (GoMap.keys ([("max_connections", entryOf false "max_connections" ⟨5, true⟩ "second"),
                  ("", entryOf false "" ⟨0, false⟩ "unnamed")] : Snapshot)).Nodup ∧
      (∀ k, k ∈ GoMap.keys ([("max_connections",
                    entryOf false "max_connections" ⟨5, true⟩ "second"),
                  ("", entryOf false "" ⟨0, false⟩ "unnamed")] : Snapshot) ↔
        ∃ v d, ScanResult.row k v d ∈ sampleRows.steps) ∧
      (∀ k s, (k, s) ∈ ([("max_connections",
                    entryOf false "max_connections" ⟨5, true⟩ "second"),
                  ("", entryOf false "" ⟨0, false⟩ "unnamed")] : Snapshot) →
        GoMap.get? s "name" = some (Iface.str k)) :=
  readConfiguration_names sampleClient false sampleWorld
    { remote := sampleWorld.remote,
      log := [Event.readConfiguration false, Event.connection, Event.Query 1] }
    _ 1 sampleWorld.remote sampleWorld.remote sampleRows rfl rfl rfl

/-! ## Claims on the diff -/

/-- C1: after a successful read with descriptions,
`resourceRdsConfigurationCustomizeDiff` returns an error if and only if some
desired entry's name is not a key of the snapshot; when every desired name
is a key it returns no error. -/
theorem customizeDiff_error_iff {σ : Type} (client : mysqlClient σ)
    (desired : List SettingArg) (w w' : World σ) (snap : Snapshot)
    (hread : readConfiguration client true w = ((some snap, none), w')) :
    ((resourceRdsConfigurationCustomizeDiff client desired w).1 ≠ none ↔
        ∃ s ∈ desired, s.name ∉ GoMap.keys snap) ∧
      ((∀ s ∈ desired, s.name ∈ GoMap.keys snap) →
        (resourceRdsConfigurationCustomizeDiff client desired w).1 = none) := by
  rw [customizeDiff_eq client desired w w' snap hread]
  have key : ((desired.filter fun s => decide (s.name ∉ GoMap.keys snap)).map
      SettingArg.name).length > 0 ↔ ∃ s ∈ desired, s.name ∉ GoMap.keys snap := by
    rw [List.length_map, gt_iff_lt, List.length_pos_iff_exists_mem]
    constructor
    · rintro ⟨s, hs⟩
      rw [List.mem_filter] at hs
      exact ⟨s, hs.1, by simpa using hs.2⟩
    · rintro ⟨s, hs, hn⟩
      exact ⟨s, List.mem_filter.mpr ⟨hs, by simpa using hn⟩⟩
  constructor
  · split
    · rename_i hpos
      simp only [ne_eq, reduceCtorEq, not_false_eq_true, true_iff]
      exact key.mp hpos
    · rename_i hpos
      simp only [ne_eq, not_true_eq_false, false_iff]
      exact fun hex => hpos (key.mpr hex)
  · intro hall
    split
    · rename_i hpos
      obtain ⟨s, hs, hn⟩ := key.mp hpos
      exact absurd (hall s hs) hn
    · rfl

/-- C1 at `sampleWorld` with the desired names `bogus`, `max_connections`. -/
theorem customizeDiff_error_iff_witness :
    ((resourceRdsConfigurationCustomizeDiff sampleClient
          [⟨"bogus", 1⟩, ⟨"max_connections", 2⟩] sampleWorld).1 ≠ none ↔
        ∃ s ∈ ([⟨"bogus", 1⟩, ⟨"max_connections", 2⟩] : List SettingArg),
          s.name ∉ GoMap.keys
            ([("max_connections", entryOf true "max_connections" ⟨5, true⟩ "second"),
              ("", entryOf true "" ⟨0, false⟩ "unnamed")] : Snapshot)) ∧
      ((∀ s ∈ ([⟨"bogus", 1⟩, ⟨"max_connections", 2⟩] : List SettingArg),
          s.name ∈ GoMap.keys
            ([("max_connections", entryOf true "max_connections" ⟨5, true⟩ "second"),
              ("", entryOf true "" ⟨0, false⟩ "unnamed")] : Snapshot)) →
        (resourceRdsConfigurationCustomizeDiff sampleClient
          [⟨"bogus", 1⟩, ⟨"max_connections", 2⟩] sampleWorld).1 = none) :=
  customizeDiff_error_iff sampleClient [⟨"bogus", 1⟩, ⟨"max_connections", 2⟩] sampleWorld
    { remote := sampleWorld.remote,
      log := [Event.readConfiguration true, Event.connection, Event.Query 1] }
    _ rfl

/-- C2: when the diff fails on unrecognized names, its message is
`Unsupported RDS configuration settings: "`, the desired names absent from
the snapshot in desired-list order joined by `", "`, then `"`, a blank
line, `Valid settings are:` and one line per snapshot entry, in some order
of the entries, line `i` (counting from 1) being the ordinal `i` in `% 3d`
format followed by the entry's name in quotes and its description. -/
theorem customizeDiff_message {σ : Type} (client : mysqlClient σ)
    (desired : List SettingArg) (w w' : World σ) (snap : Snapshot)
    (hread : readConfiguration client true w = ((some snap, none), w'))
    (hbad : ∃ s ∈ desired, s.name ∉ GoMap.keys snap) :
    ∃ listed : List (String × String),
      listed.Perm (snap.map fun e => (e.1, descriptionOf e.2)) ∧
      (∀ e ∈ snap, GoMap.get? e.2 "description" = some (Iface.str (descriptionOf e.2))) ∧
      (resourceRdsConfigurationCustomizeDiff client desired w).1 =
        some ("Unsupported RDS configuration settings: \"" ++
          String.intercalate "\", \""
            ((desired.filter fun s => decide (s.name ∉ GoMap.keys snap)).map SettingArg.name) ++
          "\"\n\n" ++ "Valid settings are:\n" ++
          String.join ((List.enumFrom 1 listed).map fun p =>
            ordinalLine p.1 p.2.1 p.2.2)) := by
  obtain ⟨db, r₁, rows, r₂, -, -, hs, -⟩ := readConfiguration_ok client true w w' snap none hread
  have hpair := listed_pair rows.steps snap none hs
  refine ⟨(client.Values snap).map fun c =>
      (fmtS (GoMap.get? c "name"), fmtS (GoMap.get? c "description")), ?_, ?_, ?_⟩
  · have hp := (client.Values_perm snap).map fun c =>
      (fmtS (GoMap.get? c "name"), fmtS (GoMap.get? c "description"))
    refine hp.trans (List.Perm.of_eq ?_)
    simp only [GoMap.values, List.map_map]
    apply List.map_congr_left
    intro e he
    obtain ⟨k, s⟩ := e
    obtain ⟨h₁, -, h₃⟩ := hpair k s he
    simp [h₁, h₃]
  · intro e he
    exact (hpair e.1 e.2 he).2.1
  · rw [customizeDiff_eq client desired w w' snap hread]
    have hpos : ((desired.filter fun s => decide (s.name ∉ GoMap.keys snap)).map
        SettingArg.name).length > 0 := by
      obtain ⟨s, hs', hn⟩ := hbad
      rw [List.length_map, gt_iff_lt, List.length_pos_iff_exists_mem]
      exact ⟨s, List.mem_filter.mpr ⟨hs', by simpa using hn⟩⟩
    rw [if_pos hpos, enumFrom_map_snd]
    simp only [List.map_map]
    rfl

/-- C2 at `sampleWorld` with the desired names `bogus`, `max_connections`,
`b2`: the message in full, and the line of a two-digit and of a three-digit
ordinal. -/
theorem customizeDiff_message_witness :
    (∃ listed : List (String × String),
      listed.Perm (([("max_connections", entryOf true "max_connections" ⟨5, true⟩ "second"),
              ("", entryOf true "" ⟨0, false⟩ "unnamed")] : Snapshot).map
            fun e => (e.1, descriptionOf e.2)) ∧
      (∀ e ∈ ([("max_connections", entryOf true "max_connections" ⟨5, true⟩ "second"),
              ("", entryOf true "" ⟨0, false⟩ "unnamed")] : Snapshot),
          GoMap.get? e.2 "description" = some (Iface.str (descriptionOf e.2))) ∧
      (resourceRdsConfigurationCustomizeDiff sampleClient
          [⟨"bogus", 1⟩, ⟨"max_connections", 2⟩, ⟨"b2", 3⟩] sampleWorld).1 =
        some ("Unsupported RDS configuration settings: \"" ++
          String.intercalate "\", \""
            ((([⟨"bogus", 1⟩, ⟨"max_connections", 2⟩, ⟨"b2", 3⟩] : List SettingArg).filter
              fun s => decide (s.name ∉ GoMap.keys
                ([("max_connections", entryOf true "max_connections" ⟨5, true⟩ "second"),
                  ("", entryOf true "" ⟨0, false⟩ "unnamed")] : Snapshot))).map
              SettingArg.name) ++
          "\"\n\n" ++ "Valid settings are:\n" ++
          String.join ((List.enumFrom 1 listed).map fun p =>
            ordinalLine p.1 p.2.1 p.2.2))) ∧
      (resourceRdsConfigurationCustomizeDiff sampleClient
          [⟨"bogus", 1⟩, ⟨"max_connections", 2⟩, ⟨"b2", 3⟩] sampleWorld).1 =
        some ("Unsupported RDS configuration settings: \"bogus\", \"b2\"\n\n" ++
          "Valid settings are:\n" ++
          "  1. \"max_connections\": second\n" ++
          "  2. \"\": unnamed\n") ∧
      ordinalLine 10 "max_connections" "second" = " 10. \"max_connections\": second\n" ∧
      ordinalLine 100 "max_connections" "second" = " 100. \"max_connections\": second\n" :=
  ⟨customizeDiff_message sampleClient [⟨"bogus", 1⟩, ⟨"max_connections", 2⟩, ⟨"b2", 3⟩]
      sampleWorld
      { remote := sampleWorld.remote,
        log := [Event.readConfiguration true, Event.connection, Event.Query 1] }
      _ rfl ⟨⟨"bogus", 1⟩, by simp, by decide⟩,
    by decide, by decide, by decide⟩

/-! ## Claims on create/update, delete and import -/

/-- C3: once the connection is acquired, create/update issues one mutation
call per desired entry, in list order, with that entry's name and value.
When all calls succeed the log holds exactly those calls followed by the
calls of the closing read, none of which is a mutation call. When the call
for an entry is the first to fail, the log holds the calls for the entries
up to and including that one and nothing after them, the remote state is
the one that call left (nothing is undone), the resource data is untouched
and the operation returns a single diagnostic of severity Error whose
summary is that failure. -/
theorem createOrUpdate_calls {σ : Type} (hash : Setting → Nat) (client : mysqlClient σ)
    (d : ResourceData) (desired : List SettingArg) (w : World σ) (db : Handle) (r₁ : σ)
    (hconn : client.connection w.remote = (Except.ok db, r₁)) :
    (∀ r, applyAll client db desired r₁ = some r →
        ∃ tail, (resourceRdsConfigurationCreateOrUpdate hash client d desired w).2.2.log =
            w.log ++ [Event.connection] ++ desired.map (execEvent db) ++ tail ∧
          ∀ ev ∈ tail, isExec ev = false) ∧
      (∀ pre s post r err r', desired = pre ++ s :: post →
        applyAll client db pre r₁ = some r →
        client.Exec db s.name s.value r = (some err, r') →
        resourceRdsConfigurationCreateOrUpdate hash client d desired w =
            ([Diagnostic.mk Severity.Error err ""], d,
              World.mk r' (w.log ++ [Event.connection] ++ (pre ++ [s]).map (execEvent db))) ∧
          HasError (resourceRdsConfigurationCreateOrUpdate hash client d desired w).1 = true) := by
  constructor
  · intro r hr
    unfold resourceRdsConfigurationCreateOrUpdate
    rw [hconn]
    simp only []
    rw [execLoop_ok client db desired (w.step Event.connection r₁) r hr]
    simp only [read_world]
    obtain ⟨tail, h₁, h₂⟩ := readConfiguration_log client false
      { remote := r, log := (w.step Event.connection r₁).log ++ desired.map (execEvent db) }
    exact ⟨tail, by rw [h₁]; simp [World.step], h₂⟩
  · intro pre s post r err r' hd hr hx
    have key : resourceRdsConfigurationCreateOrUpdate hash client d desired w =
        ([Diagnostic.mk Severity.Error err ""], d,
          World.mk r' (w.log ++ [Event.connection] ++ (pre ++ [s]).map (execEvent db))) := by
      unfold resourceRdsConfigurationCreateOrUpdate
      rw [hconn, hd]
      simp only []
      rw [execLoop_fail client db pre s post (w.step Event.connection r₁) r r' err hr hx]
      simp [World.step, FromErr]
    exact ⟨key, by rw [key]; rfl⟩

/-- C3 at `sampleWorld`, whose instance accepts one mutation: of the
entries `a`, `b`, `c` the call for `b` is the first to fail; the calls
logged are the connection, `a` and `b`, and the diagnostic is the error. -/
theorem createOrUpdate_calls_witness :
    resourceRdsConfigurationCreateOrUpdate sampleHash sampleClient ⟨"", []⟩
          [⟨"a", 1⟩, ⟨"b", 2⟩, ⟨"c", 3⟩] sampleWorld =
        ([Diagnostic.mk Severity.Error "exec failed" ""], ⟨"", []⟩,
          World.mk (Inst.mk sampleRows 0)
            ([] ++ [Event.connection] ++
              ([SettingArg.mk "a" 1] ++ [SettingArg.mk "b" 2]).map (execEvent 1))) ∧
      HasError (resourceRdsConfigurationCreateOrUpdate sampleHash sampleClient ⟨"", []⟩
          [⟨"a", 1⟩, ⟨"b", 2⟩, ⟨"c", 3⟩] sampleWorld).1 = true ∧
      (resourceRdsConfigurationCreateOrUpdate sampleHash sampleClient ⟨"", []⟩
          [⟨"a", 1⟩, ⟨"b", 2⟩, ⟨"c", 3⟩] sampleWorld).2.2.log =
        [Event.connection, Event.Exec 1 "a" 1, Event.Exec 1 "b" 2] :=
  ⟨((createOrUpdate_calls sampleHash sampleClient ⟨"", []⟩ [⟨"a", 1⟩, ⟨"b", 2⟩, ⟨"c", 3⟩]
      sampleWorld 1 sampleWorld.remote rfl).2 [⟨"a", 1⟩] ⟨"b", 2⟩ [⟨"c", 3⟩]
      (Inst.mk sampleRows 0) "exec failed" (Inst.mk sampleRows 0) rfl rfl rfl).1,
   ((createOrUpdate_calls sampleHash sampleClient ⟨"", []⟩ [⟨"a", 1⟩, ⟨"b", 2⟩, ⟨"c", 3⟩]
      sampleWorld 1 sampleWorld.remote rfl).2 [⟨"a", 1⟩] ⟨"b", 2⟩ [⟨"c", 3⟩]
      (Inst.mk sampleRows 0) "exec failed" (Inst.mk sampleRows 0) rfl rfl rfl).2,
   rfl⟩

/-- C7 as stated fails: at `nullWorld` create/update completes without an
error diagnostic, the snapshot read after the mutation call holds the entry
`binlog retention hours` with a nil value, and the settings stored hold it
with the value 0, so the snapshot's entry is not among the settings. -/
theorem createOrUpdate_stores_zero_for_null :
    HasError (resourceRdsConfigurationCreateOrUpdate sampleHash sampleClient ⟨"", []⟩
        [⟨"binlog retention hours", 24⟩] nullWorld).1 = false ∧
      (readConfiguration sampleClient false
          (World.mk (Inst.mk nullRows 0)
            [Event.connection, Event.Exec 1 "binlog retention hours" 24])).1 =
        (some [("binlog retention hours",
                [("name", Iface.str "binlog retention hours"), ("value", Iface.null)])],
          none) ∧
      (resourceRdsConfigurationCreateOrUpdate sampleHash sampleClient ⟨"", []⟩
          [⟨"binlog retention hours", 24⟩] nullWorld).2.1.setting =
        [[("name", Iface.str "binlog retention hours"), ("value", Iface.int 0)]] ∧
      [("name", Iface.str "binlog retention hours"), ("value", Iface.null)] ∉
        (resourceRdsConfigurationCreateOrUpdate sampleHash sampleClient ⟨"", []⟩
          [⟨"binlog retention hours", 24⟩] nullWorld).2.1.setting := by
  refine ⟨rfl, rfl, rfl, ?_⟩
  decide

/-- C7 amended: a create/update that returns no error diagnostic leaves the
identity `singleton`, and its settings are the set the schema keeps for the
snapshot that `readConfiguration` without descriptions returned after all
the mutation calls had succeeded: every setting is an entry's name with its
value, NULL stored as 0; every entry is represented by a setting of the
same hash code; no hash code is repeated; and when no two entries share a
hash code the settings are exactly the typed entries. -/
theorem createOrUpdate_success {σ : Type} (hash : Setting → Nat) (client : mysqlClient σ)
    (d : ResourceData) (desired : List SettingArg) (w : World σ)
    (hok : HasError (resourceRdsConfigurationCreateOrUpdate hash client d desired w).1 = false) :
    (resourceRdsConfigurationCreateOrUpdate hash client d desired w).2.1.Id = "singleton" ∧
      ∃ db r₁ r snap, client.connection w.remote = (Except.ok db, r₁) ∧
        applyAll client db desired r₁ = some r ∧
        readConfiguration client false
            (World.mk r (w.log ++ [Event.connection] ++ desired.map (execEvent db))) =
          ((some snap, none),
            (resourceRdsConfigurationCreateOrUpdate hash client d desired w).2.2) ∧
        (∀ s ∈ (resourceRdsConfigurationCreateOrUpdate hash client d desired w).2.1.setting,
          ∃ e ∈ snap, s = storedEntry e) ∧
        (∀ e ∈ snap,
          ∃ s ∈ (resourceRdsConfigurationCreateOrUpdate hash client d desired w).2.1.setting,
            hash s = hash (storedEntry e)) ∧
        (((resourceRdsConfigurationCreateOrUpdate hash client d desired w).2.1.setting).map
          hash).Nodup ∧
        ((∀ a ∈ snap, ∀ b ∈ snap, hash (storedEntry a) = hash (storedEntry b) → a = b) →
          ((resourceRdsConfigurationCreateOrUpdate hash client d desired w).2.1.setting).Perm
            (snap.map storedEntry)) := by
  unfold resourceRdsConfigurationCreateOrUpdate at hok ⊢
  rcases hc : client.connection w.remote with ⟨c, r₁⟩
  rw [hc] at hok
  cases c with
  | error err => simp [HasError, FromErr] at hok
  | ok db =>
    simp only [] at hok ⊢
    rcases hx : execLoop client db desired (w.step Event.connection r₁) with ⟨e, w₁⟩
    rw [hx] at hok
    cases e with
    | some err => simp [HasError, FromErr] at hok
    | none =>
      simp only [] at hok ⊢
      obtain ⟨h₁, h₂⟩ := execLoop_none client db desired _ w₁ hx
      obtain ⟨snap, typed, hr, hp, hd⟩ :=
        read_no_error hash client { d with Id := "singleton" } w₁ hok
      have hw : w₁ = World.mk w₁.remote
          (w.log ++ [Event.connection] ++ desired.map (execEvent db)) := by
        cases w₁
        simp only [World.step] at h₂
        simp_all
      have hnd : (GoMap.keys snap).Nodup := by
        obtain ⟨db', r₁', rows, r₂, -, -, hscan, -⟩ :=
          readConfiguration_ok client false w₁ _ snap none hr
        exact scanLoop_nodup false rows.steps [] snap none hscan (by simp [GoMap.keys])
      obtain ⟨ha, hb, hc', hd'⟩ := stored_spec hash snap typed hp hnd
      rw [hd]
      refine ⟨rfl, db, r₁, w₁.remote, snap, rfl, h₁, ?_, ha, hb, hc', hd'⟩
      rw [← hw]
      exact hr

/-- C7 amended, at `nullWorld`: the setting stored for the NULL-valued
entry has the value 0. -/
theorem createOrUpdate_success_witness :
    ((resourceRdsConfigurationCreateOrUpdate sampleHash sampleClient ⟨"old", []⟩
          [⟨"binlog retention hours", 24⟩] nullWorld).2.1.Id = "singleton" ∧
      ∃ db r₁ r snap, sampleClient.connection nullWorld.remote = (Except.ok db, r₁) ∧
        applyAll sampleClient db [⟨"binlog retention hours", 24⟩] r₁ = some r ∧
        readConfiguration sampleClient false
            (World.mk r (nullWorld.log ++ [Event.connection] ++
              ([⟨"binlog retention hours", 24⟩] : List SettingArg).map (execEvent db))) =
          ((some snap, none),
            (resourceRdsConfigurationCreateOrUpdate sampleHash sampleClient ⟨"old", []⟩
              [⟨"binlog retention hours", 24⟩] nullWorld).2.2) ∧
        (∀ s ∈ (resourceRdsConfigurationCreateOrUpdate sampleHash sampleClient ⟨"old", []⟩
              [⟨"binlog retention hours", 24⟩] nullWorld).2.1.setting,
          ∃ e ∈ snap, s = storedEntry e) ∧
        (∀ e ∈ snap,
          ∃ s ∈ (resourceRdsConfigurationCreateOrUpdate sampleHash sampleClient ⟨"old", []⟩
              [⟨"binlog retention hours", 24⟩] nullWorld).2.1.setting,
            sampleHash s = sampleHash (storedEntry e)) ∧
        (((resourceRdsConfigurationCreateOrUpdate sampleHash sampleClient ⟨"old", []⟩
              [⟨"binlog retention hours", 24⟩] nullWorld).2.1.setting).map sampleHash).Nodup ∧
        ((∀ a ∈ snap, ∀ b ∈ snap,
            sampleHash (storedEntry a) = sampleHash (storedEntry b) → a = b) →
          ((resourceRdsConfigurationCreateOrUpdate sampleHash sampleClient ⟨"old", []⟩
              [⟨"binlog retention hours", 24⟩] nullWorld).2.1.setting).Perm
            (snap.map storedEntry))) ∧
      (resourceRdsConfigurationCreateOrUpdate sampleHash sampleClient ⟨"old", []⟩
          [⟨"binlog retention hours", 24⟩] nullWorld).2.1 =
        ResourceData.mk "singleton"
          [[("name", Iface.str "binlog retention hours"), ("value", Iface.int 0)]] :=
  ⟨createOrUpdate_success sampleHash sampleClient ⟨"old", []⟩
      [⟨"binlog retention hours", 24⟩] nullWorld rfl, rfl⟩

/-- C8: `resourceRdsConfigurationDelete` leaves the remote state and the
call log as they were (it issues no call), sets the identity to the empty
string, and returns exactly one diagnostic, of severity Warning. -/
theorem delete_only_clears_identity {σ : Type} (client : mysqlClient σ) (d : ResourceData)
    (w : World σ) :
    (resourceRdsConfigurationDelete client d w).2.2 = w ∧
      (resourceRdsConfigurationDelete client d w).2.1.Id = "" ∧
      (resourceRdsConfigurationDelete client d w).2.1.setting = d.setting ∧
      (∃ dg, (resourceRdsConfigurationDelete client d w).1 = [dg] ∧
        dg.Severity = Severity.Warning) ∧
      HasError (resourceRdsConfigurationDelete client d w).1 = false :=
  ⟨rfl, rfl, rfl, ⟨_, rfl, rfl⟩, rfl⟩

/-- C9 as stated fails: at `sampleWorld` the import succeeds and the only
invocation of the reader it logs is one without descriptions. -/
theorem import_reads_without_descriptions :
    (resourceRdsConfigurationImport sampleHash sampleClient ⟨"", []⟩ sampleWorld).1.2 = none ∧
      (resourceRdsConfigurationImport sampleHash sampleClient ⟨"", []⟩ sampleWorld).2.2.log =
        [Event.readConfiguration false, Event.connection, Event.Query 1] ∧
      Event.readConfiguration true ∉
        (resourceRdsConfigurationImport sampleHash sampleClient ⟨"", []⟩ sampleWorld).2.2.log := by
  refine ⟨rfl, rfl, ?_⟩
  decide

/-- C9 amended: when the read of an import succeeds, the reader was
invoked without descriptions, and the single resource returned has as its
settings the set the schema keeps for the snapshot: every setting is an
entry's name with its value, NULL stored as 0; every entry is represented
by a setting of the same hash code; no hash code is repeated; when no two
entries share a hash code the settings are exactly the typed entries; and
no setting has a description field, so deleting it changes nothing. -/
theorem import_adopts {σ : Type} (hash : Setting → Nat) (client : mysqlClient σ)
    (d : ResourceData) (w w' : World σ) (snap : Snapshot)
    (hread : readConfiguration client false w = ((some snap, none), w')) :
    ∃ stored : List Setting,
      resourceRdsConfigurationImport hash client d w =
          ((some [ResourceData.mk d.Id stored], none), ResourceData.mk d.Id stored, w') ∧
        (∀ s ∈ stored, ∃ e ∈ snap, s = storedEntry e) ∧
        (∀ e ∈ snap, ∃ s ∈ stored, hash s = hash (storedEntry e)) ∧
        (stored.map hash).Nodup ∧
        ((∀ a ∈ snap, ∀ b ∈ snap, hash (storedEntry a) = hash (storedEntry b) → a = b) →
          stored.Perm (snap.map storedEntry)) ∧
        (∀ s ∈ stored, GoMap.get? s "description" = none) ∧
        ∃ db, w'.log = w.log ++
          [Event.readConfiguration false, Event.connection, Event.Query db] := by
  obtain ⟨typed, hp, hr⟩ := read_ok hash client d w w' snap hread
  obtain ⟨db, r₁, rows, r₂, -, -, hscan, hw⟩ :=
    readConfiguration_ok client false w w' snap none hread
  have hnd : (GoMap.keys snap).Nodup :=
    scanLoop_nodup false rows.steps [] snap none hscan (by simp [GoMap.keys])
  obtain ⟨ha, hb, hc, hd⟩ := stored_spec hash snap typed hp hnd
  have hdesc : ∀ s ∈ addAll hash typed [], GoMap.get? s "description" = none := by
    intro s hs
    obtain ⟨e, -, rfl⟩ := ha s hs
    exact storedEntry_no_description e
  refine ⟨addAll hash typed [], ?_, ha, hb, hc, hd, hdesc, db, by rw [hw]⟩
  unfold resourceRdsConfigurationImport
  rw [hr]
  have hstrip : importStrip { d with setting := addAll hash typed [] } =
      ResourceData.mk d.Id (addAll hash typed []) := by
    unfold importStrip
    congr 1
    conv_rhs => rw [← List.map_id (addAll hash typed [])]
    apply List.map_congr_left
    intro s hs
    exact GoMap.delete_eq_self s "description" (hdesc s hs)
  simp [HasError, hstrip]

/-- C9 amended, at `sampleWorld`: the adopted settings are the entry
`max_connections` with 5 and the unnamed NULL entry with 0. -/
theorem import_adopts_witness :
    (∃ stored : List Setting,
      resourceRdsConfigurationImport sampleHash sampleClient ⟨"", []⟩ sampleWorld =
          ((some [ResourceData.mk "" stored], none), ResourceData.mk "" stored,
            World.mk sampleWorld.remote
              [Event.readConfiguration false, Event.connection, Event.Query 1]) ∧
        (∀ s ∈ stored, ∃ e ∈ ([("max_connections",
              entryOf false "max_connections" ⟨5, true⟩ "second"),
            ("", entryOf false "" ⟨0, false⟩ "unnamed")] : Snapshot), s = storedEntry e) ∧
        (∀ e ∈ ([("max_connections", entryOf false "max_connections" ⟨5, true⟩ "second"),
            ("", entryOf false "" ⟨0, false⟩ "unnamed")] : Snapshot),
          ∃ s ∈ stored, sampleHash s = sampleHash (storedEntry e)) ∧
        (stored.map sampleHash).Nodup ∧
        ((∀ a ∈ ([("max_connections", entryOf false "max_connections" ⟨5, true⟩ "second"),
            ("", entryOf false "" ⟨0, false⟩ "unnamed")] : Snapshot),
          ∀ b ∈ ([("max_connections", entryOf false "max_connections" ⟨5, true⟩ "second"),
            ("", entryOf false "" ⟨0, false⟩ "unnamed")] : Snapshot),
            sampleHash (storedEntry a) = sampleHash (storedEntry b) → a = b) →
          stored.Perm (([("max_connections",
              entryOf false "max_connections" ⟨5, true⟩ "second"),
            ("", entryOf false "" ⟨0, false⟩ "unnamed")] : Snapshot).map storedEntry)) ∧
        (∀ s ∈ stored, GoMap.get? s "description" = none) ∧
        ∃ db, (World.mk sampleWorld.remote
              [Event.readConfiguration false, Event.connection, Event.Query 1]).log =
          sampleWorld.log ++
            [Event.readConfiguration false, Event.connection, Event.Query db]) ∧
      (resourceRdsConfigurationImport sampleHash sampleClient ⟨"", []⟩ sampleWorld).1 =
        (some [ResourceData.mk ""
          [[("name", Iface.str "max_connections"), ("value", Iface.int 5)],
           [("name", Iface.str ""), ("value", Iface.int 0)]]], none) :=
  ⟨import_adopts sampleHash sampleClient ⟨"", []⟩ sampleWorld
      (World.mk sampleWorld.remote
        [Event.readConfiguration false, Event.connection, Event.Query 1])
      _ rfl, rfl⟩

/-! ## Claim on the connection cache -/

/-- C6: on one closure, a first call whose only attempt opens handle 7 and
fails its ping returns the error and leaves 7 in the captured variable; the
second call, with no attempt at all, returns handle 7 without an error
although no ping on it ever succeeded. The text standing for the SDK's
timeout error is not reached: the first call returns the ping's error. -/
theorem getConnection_caches_unverified_handle :
    getConnection "timeout" [Attempt.pingErr 7 "connection refused"] none =
        ((none, some "connection refused"), some 7) ∧
      acquireSeq "timeout" [[Attempt.pingErr 7 "connection refused"], []] none =
        [(none, some "connection refused"), (some 7, none)] := by
  constructor <;> rfl

end RdsConfiguration
